import Mathlib

/-
Verification of the image-cache core against its specification.

The definitions below are a shallow embedding of the repository sources:
  * src/src/network.ts          (class Network)
  * src/unnamed/part_003        (class Img)

JavaScript Maps with string keys become insertion-ordered lists with unique
keys; Sets become lists; side effects (loader spawns, event emissions, DOM
calls such as URL.revokeObjectURL) become explicit action traces returned
next to the new state. The external Controller reply to the check-memory
event is modelled as an oracle: a list of booleans, one consumed per check,
defaulting to false when exhausted (matching the source, where the reply
object starts as overflow=false and is only changed by a listener).
-/

namespace ImageCache

/-- A cache image as the Network sees it: its URL and its loaded flag. -/
structure NImage where
  url : String
  loaded : Bool
deriving DecidableEq, Repr

/-- State of class Network (src/src/network.ts, fields at lines 6-11).
The processes map keys (in-flight URLs) are kept as a list; the imageQueue
map is a list of images in insertion order, keyed by url. -/
structure NetworkState where
  processes : List String
  imageQueue : List NImage
  maxProcesses : Nat
  loadedCount : Nat
  canceledCount : Nat
  erroredCount : Nat
deriving DecidableEq, Repr

/-- Externally visible actions the Network performs, in program order. -/
inductive NetAction where
  | spawn (url : String)
  | warnOverflow
  | incLoaded
  | incErrored
  | removeProcess (url : String)
  | notifyLoadError (url : String)
  | assignBlob (url : String)
  | emitLoad (url : String)
  | abortLoader (url : String)
deriving DecidableEq, Repr

/-- Network constructor (lines 13-19): maxProcesses defaults to 16. -/
def Network.init (loaders : Option Nat) : NetworkState :=
  { processes := []
    imageQueue := []
    maxProcesses := loaders.getD 16
    loadedCount := 0
    canceledCount := 0
    erroredCount := 0 }

/-- Loop body of Network.update (lines 47-60). Each iteration checks the
concurrency guard, then asks the memory oracle (canLoad, lines 62-66,
consuming one reply), then spawns the loader for the head image
(processImage registers the url in processes before loader.load) and
deletes it from the queue. Returns the remaining queue, the new in-flight
list and the actions performed. -/
def updateLoop : List Bool → List NImage → List String → Nat →
    List NImage × List String × List NetAction
  | _, [], procs, _ => ([], procs, [])
  | mem, img :: rest, procs, maxP =>
    if maxP ≤ procs.length then (img :: rest, procs, [])
    else if mem.headD false then (img :: rest, procs, [NetAction.warnOverflow])
    else
      let r := updateLoop mem.tail rest (procs ++ [img.url]) maxP
      (r.1, r.2.1, NetAction.spawn img.url :: r.2.2)

/-- Network.update (lines 47-60). The initial early return when
processes is already full coincides with the first loop guard. -/
def Network.update (mem : List Bool) (s : NetworkState) :
    NetworkState × List NetAction :=
  let r := updateLoop mem s.imageQueue s.processes s.maxProcesses
  ({ s with imageQueue := r.1, processes := r.2.1 }, r.2.2)

/-- Network.add (lines 24-32). -/
def Network.add (mem : List Bool) (img : NImage) (s : NetworkState) :
    NetworkState × List NetAction :=
  if img.loaded then (s, [])
  else
    let s1 :=
      if img.url ∈ s.imageQueue.map NImage.url ∨ img.url ∈ s.processes then s
      else { s with imageQueue := s.imageQueue ++ [img] }
    Network.update mem s1

/-- Deletion of a key from the queue map. -/
def queueDelete (url : String) (q : List NImage) : List NImage :=
  q.filter (fun i => i.url ≠ url)

/-- Network.remove (lines 34-45). -/
def Network.remove (mem : List Bool) (img : NImage) (s : NetworkState) :
    NetworkState × List NetAction :=
  let step1 :=
    if img.url ∈ s.imageQueue.map NImage.url then
      Network.update mem { s with imageQueue := queueDelete img.url s.imageQueue }
    else (s, [])
  if img.url ∈ step1.1.processes then
    (step1.1, step1.2 ++ [NetAction.abortLoader img.url])
  else step1

/-- The shared onDone closure of Network.processImage (lines 70-74):
remove the loader from the in-flight map and re-enter the dispatch cycle. -/
def Network.onDone (mem : List Bool) (url : String) (s : NetworkState) :
    NetworkState × List NetAction :=
  let s1 := { s with processes := s.processes.erase url }
  let r := Network.update mem s1
  (r.1, NetAction.removeProcess url :: r.2)

/-- Loader abort handler (lines 84-86): onDone only, no counter change. -/
def Network.handleAbort (mem : List Bool) (url : String) (s : NetworkState) :
    NetworkState × List NetAction :=
  Network.onDone mem url s

/-- Loader error handler (lines 88-92): increment erroredCount, call
image.onLoadError, then onDone. -/
def Network.handleError (mem : List Bool) (url : String) (s : NetworkState) :
    NetworkState × List NetAction :=
  let s1 := { s with erroredCount := s.erroredCount + 1 }
  let r := Network.onDone mem url s1
  (r.1, NetAction.incErrored :: NetAction.notifyLoadError url :: r.2)

/-- Loader timeout handler (lines 94-97): increment erroredCount, then
onDone. The source does not call image.onLoadError here. -/
def Network.handleTimeout (mem : List Bool) (url : String) (s : NetworkState) :
    NetworkState × List NetAction :=
  let s1 := { s with erroredCount := s.erroredCount + 1 }
  let r := Network.onDone mem url s1
  (r.1, NetAction.incErrored :: r.2)

/-- Loader load handler (lines 99-104): increment loadedCount, onDone
(which re-runs the dispatch cycle), then assign the blob to the image and
emit the Network-level load event. -/
def Network.handleLoad (mem : List Bool) (url : String) (s : NetworkState) :
    NetworkState × List NetAction :=
  let s1 := { s with loadedCount := s.loadedCount + 1 }
  let r := Network.onDone mem url s1
  (r.1, NetAction.incLoaded :: r.2 ++ [NetAction.assignBlob url, NetAction.emitLoad url])

/-- All URLs known to the Network: queued first, then in flight. -/
def netUrls (s : NetworkState) : List String :=
  s.imageQueue.map NImage.url ++ s.processes

/-- One externally triggered Network operation: a public method call or a
loader event callback (the latter only for a loader that is in flight,
since onDone removes all listeners of a finished loader). Each operation
carries its own memory-oracle replies. -/
inductive NetStep : NetworkState → NetworkState → Prop where
  | add (mem : List Bool) (img : NImage) (s : NetworkState) :
      NetStep s (Network.add mem img s).1
  | remove (mem : List Bool) (img : NImage) (s : NetworkState) :
      NetStep s (Network.remove mem img s).1
  | abortEvt (mem : List Bool) (url : String) (s : NetworkState)
      (h : url ∈ s.processes) : NetStep s (Network.handleAbort mem url s).1
  | errorEvt (mem : List Bool) (url : String) (s : NetworkState)
      (h : url ∈ s.processes) : NetStep s (Network.handleError mem url s).1
  | timeoutEvt (mem : List Bool) (url : String) (s : NetworkState)
      (h : url ∈ s.processes) : NetStep s (Network.handleTimeout mem url s).1
  | loadEvt (mem : List Bool) (url : String) (s : NetworkState)
      (h : url ∈ s.processes) : NetStep s (Network.handleLoad mem url s).1

/-- Network states reachable from a freshly constructed Network by any
sequence of operations. -/
inductive NetReachable : NetworkState → Prop where
  | init (loaders : Option Nat) : NetReachable (Network.init loaders)
  | step {s s' : NetworkState} : NetReachable s → NetStep s s' → NetReachable s'

/- Helper lemmas about the dispatch loop. -/

lemma headD_eq_get (mem : List Bool) : mem.headD false = (mem.get? 0).getD false := by
  cases mem <;> rfl

lemma tail_get (mem : List Bool) (i : Nat) : mem.tail.get? i = mem.get? (i + 1) := by
  cases mem <;> rfl

lemma updateLoop_cons_full {mem : List Bool} {img : NImage} {rest : List NImage}
    {procs : List String} {maxP : Nat} (h : maxP ≤ procs.length) :
    updateLoop mem (img :: rest) procs maxP = (img :: rest, procs, []) := by
  rw [updateLoop, if_pos h]

lemma updateLoop_cons_ov {mem : List Bool} {img : NImage} {rest : List NImage}
    {procs : List String} {maxP : Nat} (hmax : ¬maxP ≤ procs.length)
    (hov : mem.headD false = true) :
    updateLoop mem (img :: rest) procs maxP =
      (img :: rest, procs, [NetAction.warnOverflow]) := by
  rw [updateLoop, if_neg hmax, if_pos hov]

lemma updateLoop_cons_go {mem : List Bool} {img : NImage} {rest : List NImage}
    {procs : List String} {maxP : Nat} (hmax : ¬maxP ≤ procs.length)
    (hov : mem.headD false = false) :
    updateLoop mem (img :: rest) procs maxP =
      ((updateLoop mem.tail rest (procs ++ [img.url]) maxP).1,
        (updateLoop mem.tail rest (procs ++ [img.url]) maxP).2.1,
        NetAction.spawn img.url ::
          (updateLoop mem.tail rest (procs ++ [img.url]) maxP).2.2) := by
  rw [updateLoop, if_neg hmax, if_neg (by simp only [hov]; simp)]

/-- Structure of a dispatch cycle: some prefix of the queue (of length n) is
spawned in order, each spawn happening under a no-overflow oracle reply, the
rest of the queue is left untouched, and every action performed is either the
overflow warning or the spawn of one of those prefix images. -/
lemma updateLoop_struct (queue : List NImage) (mem : List Bool)
    (procs : List String) (maxP : Nat) :
    ∃ n, (updateLoop mem queue procs maxP).1 = queue.drop n ∧
      (updateLoop mem queue procs maxP).2.1 = procs ++ (queue.take n).map NImage.url ∧
      (∀ i, i < n → (mem.get? i).getD false = false) ∧
      (∀ a ∈ (updateLoop mem queue procs maxP).2.2, a = NetAction.warnOverflow ∨
        ∃ u, a = NetAction.spawn u ∧ u ∈ (queue.take n).map NImage.url) := by
  induction queue generalizing mem procs with
  | nil =>
    refine ⟨0, by simp [updateLoop], by simp [updateLoop], by omega, by simp [updateLoop]⟩
  | cons img rest ih =>
    by_cases hmax : maxP ≤ procs.length
    · rw [updateLoop_cons_full hmax]
      exact ⟨0, by simp, by simp, by omega, by simp⟩
    · by_cases hov : mem.headD false
      · rw [updateLoop_cons_ov hmax hov]
        exact ⟨0, by simp, by simp, by omega, by simp⟩
      · have hov' : mem.headD false = false := by simpa using hov
        rw [updateLoop_cons_go hmax hov']
        obtain ⟨n, h1, h2, h3, h4⟩ := ih mem.tail (procs ++ [img.url])
        refine ⟨n + 1, ?_, ?_, ?_, ?_⟩
        · simpa using h1
        · simpa [List.append_assoc] using h2
        · intro i hi
          cases i with
          | zero =>
            rw [← headD_eq_get]
            exact hov'
          | succ j =>
            rw [← tail_get]
            exact h3 j (by omega)
        · intro a ha
          rcases List.mem_cons.mp ha with h | h
          · exact Or.inr ⟨img.url, h, by simp⟩
          · rcases h4 a h with h | ⟨u, hu, hmem⟩
            · exact Or.inl h
            · refine Or.inr ⟨u, hu, ?_⟩
              simp only [List.take_succ_cons, List.map_cons, List.mem_cons]
              exact Or.inr hmem

/-- The dispatch loop never grows the in-flight list beyond the cap. -/
lemma updateLoop_len (queue : List NImage) (mem : List Bool)
    (procs : List String) (maxP : Nat) (h : procs.length ≤ maxP) :
    (updateLoop mem queue procs maxP).2.1.length ≤ maxP := by
  induction queue generalizing mem procs with
  | nil => simpa [updateLoop] using h
  | cons img rest ih =>
    by_cases hmax : maxP ≤ procs.length
    · rw [updateLoop_cons_full hmax]
      exact h
    · by_cases hov : mem.headD false
      · rw [updateLoop_cons_ov hmax hov]
        exact h
      · rw [updateLoop_cons_go hmax (by simpa using hov)]
        exact ih mem.tail (procs ++ [img.url]) (by simp; omega)

/-- The dispatch loop only moves URLs from the queue into the in-flight
list, so the multiset of known URLs is preserved and so is its Nodup. -/
lemma updateLoop_nodup (queue : List NImage) (mem : List Bool)
    (procs : List String) (maxP : Nat)
    (h : (queue.map NImage.url ++ procs).Nodup) :
    ((updateLoop mem queue procs maxP).1.map NImage.url ++
      (updateLoop mem queue procs maxP).2.1).Nodup := by
  obtain ⟨n, h1, h2, _, _⟩ := updateLoop_struct queue mem procs maxP
  rw [h1, h2]
  have hperm : (queue.map NImage.url ++ procs).Perm
      ((queue.drop n).map NImage.url ++ (procs ++ (queue.take n).map NImage.url)) := by
    have hq : queue.map NImage.url =
        (queue.take n).map NImage.url ++ (queue.drop n).map NImage.url := by
      rw [← List.map_append, List.take_append_drop]
    rw [hq]
    refine (List.perm_append_comm.append_right procs).trans ?_
    rw [List.append_assoc]
    exact List.Perm.append_left _ List.perm_append_comm
  exact hperm.nodup h

/-- Network.update does not change the counters or the cap. -/
lemma update_frame (mem : List Bool) (s : NetworkState) :
    (Network.update mem s).1.maxProcesses = s.maxProcesses ∧
    (Network.update mem s).1.loadedCount = s.loadedCount ∧
    (Network.update mem s).1.canceledCount = s.canceledCount ∧
    (Network.update mem s).1.erroredCount = s.erroredCount := by
  simp [Network.update]

/-- Network.update keeps the in-flight count under the cap. -/
lemma update_bound (mem : List Bool) (s : NetworkState)
    (h : s.processes.length ≤ s.maxProcesses) :
    (Network.update mem s).1.processes.length ≤ (Network.update mem s).1.maxProcesses := by
  simpa [Network.update] using updateLoop_len s.imageQueue mem s.processes s.maxProcesses h

/-- Every action of a dispatch cycle is a spawn or the overflow warning. -/
lemma update_actions_shape (mem : List Bool) (s : NetworkState) :
    ∀ a ∈ (Network.update mem s).2, a = NetAction.warnOverflow ∨
      ∃ u, a = NetAction.spawn u := by
  obtain ⟨n, _, _, _, h4⟩ := updateLoop_struct s.imageQueue mem s.processes s.maxProcesses
  intro a ha
  rcases h4 a (by simpa [Network.update] using ha) with h | ⟨u, hu, _⟩
  · exact Or.inl h
  · exact Or.inr ⟨u, hu⟩

/-- Removing a finished loader keeps the in-flight count under the cap. -/
lemma onDone_bound (mem : List Bool) (url : String) (s : NetworkState)
    (h : s.processes.length ≤ s.maxProcesses) :
    (Network.onDone mem url s).1.processes.length ≤
      (Network.onDone mem url s).1.maxProcesses := by
  have he : ({ s with processes := s.processes.erase url } :
      NetworkState).processes.length ≤
      ({ s with processes := s.processes.erase url } : NetworkState).maxProcesses := by
    simpa using le_trans (List.Sublist.length_le (List.erase_sublist url s.processes)) h
  simpa [Network.onDone] using
    update_bound mem { s with processes := s.processes.erase url } he

/-- State part of Network.add, if-lifted out of the pair. -/
lemma add_fst (mem : List Bool) (img : NImage) (s : NetworkState) :
    (Network.add mem img s).1 =
      if img.loaded = true then s else
        (Network.update mem
          (if img.url ∈ s.imageQueue.map NImage.url ∨ img.url ∈ s.processes then s
            else { s with imageQueue := s.imageQueue ++ [img] })).1 := by
  simp only [Network.add, apply_ite Prod.fst]

/-- State part of Network.remove: the trailing abort of an in-flight loader
does not change the Network state. -/
lemma remove_fst (mem : List Bool) (img : NImage) (s : NetworkState) :
    (Network.remove mem img s).1 =
      if img.url ∈ s.imageQueue.map NImage.url then
        (Network.update mem
          { s with imageQueue := queueDelete img.url s.imageQueue }).1
      else s := by
  simp only [Network.remove]
  split
  · split <;> rfl
  · split <;> rfl

/-- Every single Network operation preserves the concurrency bound. -/
lemma netStep_bound {t t' : NetworkState} (hstep : NetStep t t')
    (ih : t.processes.length ≤ t.maxProcesses) :
    t'.processes.length ≤ t'.maxProcesses := by
  cases hstep with
  | add mem img =>
    rw [add_fst]
    split
    · exact ih
    · split
      · exact update_bound mem t ih
      · exact update_bound mem { t with imageQueue := t.imageQueue ++ [img] } ih
  | remove mem img =>
    rw [remove_fst]
    split
    · exact update_bound mem
        { t with imageQueue := queueDelete img.url t.imageQueue } ih
    · exact ih
  | abortEvt mem url hmem =>
    exact onDone_bound mem url t ih
  | errorEvt mem url hmem =>
    exact onDone_bound mem url { t with erroredCount := t.erroredCount + 1 } ih
  | timeoutEvt mem url hmem =>
    exact onDone_bound mem url { t with erroredCount := t.erroredCount + 1 } ih
  | loadEvt mem url hmem =>
    exact onDone_bound mem url { t with loadedCount := t.loadedCount + 1 } ih

/-- C1: at every reachable Network state the number of in-flight loader
processes is at most the configured maximum (loadersMax, default 16):
processes.size is bounded by maxProcesses across add, remove and all loader
event callbacks. -/
theorem network_processes_bounded (s : NetworkState) (h : NetReachable s) :
    s.processes.length ≤ s.maxProcesses := by
  induction h with
  | init loaders => simp [Network.init]
  | step hr hstep ih => exact netStep_bound hstep ih

def urlA : String := "u"

def urlB : String := "v"

/-- An image pending download. -/
def imgA : NImage := { url := urlA, loaded := false }

/-- A Network state with one loader in flight for urlA. -/
def sInFlight : NetworkState :=
  { processes := [urlA]
    imageQueue := []
    maxProcesses := 16
    loadedCount := 0
    canceledCount := 0
    erroredCount := 0 }

theorem network_processes_bounded_witness :
    NetReachable (Network.add [] imgA (Network.init (some 2))).1 ∧
    (Network.add [] imgA (Network.init (some 2))).1.processes.length ≤
      (Network.add [] imgA (Network.init (some 2))).1.maxProcesses := by
  have hr : NetReachable (Network.add [] imgA (Network.init (some 2))).1 :=
    NetReachable.step (NetReachable.init (some 2))
      (NetStep.add [] imgA (Network.init (some 2)))
  exact ⟨hr, network_processes_bounded _ hr⟩

/-- A Network state with one image queued and nothing in flight. -/
def sQueued : NetworkState :=
  { processes := []
    imageQueue := [imgA]
    maxProcesses := 16
    loadedCount := 0
    canceledCount := 0
    erroredCount := 0 }

/-- C4: a dispatch cycle spawns loaders only for a prefix of the queue, each
spawn preceded by a check-memory reply reporting no overflow; on an overflow
reply it stops, and every image past the spawned prefix is left in the
queue. Hence no loader is started while the overflow check reports
overflow. -/
theorem dispatch_pauses_on_overflow (mem : List Bool) (s : NetworkState) :
    ∃ n, (Network.update mem s).1.imageQueue = s.imageQueue.drop n ∧
      (Network.update mem s).1.processes =
        s.processes ++ (s.imageQueue.take n).map NImage.url ∧
      (∀ i, i < n → (mem.get? i).getD false = false) ∧
      (∀ a ∈ (Network.update mem s).2, a = NetAction.warnOverflow ∨
        ∃ u, a = NetAction.spawn u ∧ u ∈ (s.imageQueue.take n).map NImage.url) := by
  obtain ⟨n, h1, h2, h3, h4⟩ :=
    updateLoop_struct s.imageQueue mem s.processes s.maxProcesses
  exact ⟨n, by simpa [Network.update] using h1, by simpa [Network.update] using h2,
    h3, fun a ha => h4 a (by simpa [Network.update] using ha)⟩

theorem dispatch_pauses_on_overflow_witness :
    ∃ n, (Network.update [true] sQueued).1.imageQueue = sQueued.imageQueue.drop n ∧
      (Network.update [true] sQueued).1.processes =
        sQueued.processes ++ (sQueued.imageQueue.take n).map NImage.url ∧
      (∀ i, i < n → (([true] : List Bool).get? i).getD false = false) ∧
      (∀ a ∈ (Network.update [true] sQueued).2, a = NetAction.warnOverflow ∨
        ∃ u, a = NetAction.spawn u ∧ u ∈ (sQueued.imageQueue.take n).map NImage.url) :=
  dispatch_pauses_on_overflow [true] sQueued

/-- No dispatch cycle ever notifies an image of a load failure. -/
lemma update_no_notify (mem : List Bool) (s : NetworkState) (url : String) :
    NetAction.notifyLoadError url ∉ (Network.update mem s).2 := by
  intro hmem
  rcases update_actions_shape mem s _ hmem with h | ⟨u, hu⟩
  · simp at h
  · simp at hu

/-- C2 counterexample: on a timeout event the Network increments its errored
counter but does not notify the owning image of the failure, refuting the
claim that both error and timeout notify the image. -/
theorem timeout_silent_cx :
    (Network.handleTimeout [] urlA sInFlight).1.erroredCount =
      sInFlight.erroredCount + 1 ∧
    NetAction.notifyLoadError urlA ∉ (Network.handleTimeout [] urlA sInFlight).2 := by
  refine ⟨rfl, ?_⟩
  decide

/-- C2 amended: on an error event the Network increments errored and
notifies the image via onLoadError; on a timeout event it increments errored
but does not notify the image; on abort no counter changes. -/
theorem terminal_event_counters (mem : List Bool) (url : String) (s : NetworkState) :
    (Network.handleError mem url s).1.erroredCount = s.erroredCount + 1 ∧
    NetAction.notifyLoadError url ∈ (Network.handleError mem url s).2 ∧
    (Network.handleTimeout mem url s).1.erroredCount = s.erroredCount + 1 ∧
    NetAction.notifyLoadError url ∉ (Network.handleTimeout mem url s).2 ∧
    (Network.handleAbort mem url s).1.erroredCount = s.erroredCount ∧
    (Network.handleAbort mem url s).1.loadedCount = s.loadedCount ∧
    (Network.handleAbort mem url s).1.canceledCount = s.canceledCount := by
  refine ⟨?_, ?_, ?_, ?_, ?_, ?_, ?_⟩
  · simp [Network.handleError, Network.onDone, Network.update]
  · simp [Network.handleError]
  · simp [Network.handleTimeout, Network.onDone, Network.update]
  · intro hmem
    simp only [Network.handleTimeout, Network.onDone, List.mem_cons] at hmem
    rcases hmem with h | h | h
    · simp at h
    · simp at h
    · exact update_no_notify mem _ url h
  · simp [Network.handleAbort, Network.onDone, Network.update]
  · simp [Network.handleAbort, Network.onDone, Network.update]
  · simp [Network.handleAbort, Network.onDone, Network.update]

theorem terminal_event_counters_witness :
    (Network.handleError [] urlA sInFlight).1.erroredCount =
      sInFlight.erroredCount + 1 ∧
    NetAction.notifyLoadError urlA ∈ (Network.handleError [] urlA sInFlight).2 ∧
    (Network.handleTimeout [] urlA sInFlight).1.erroredCount =
      sInFlight.erroredCount + 1 ∧
    NetAction.notifyLoadError urlA ∉ (Network.handleTimeout [] urlA sInFlight).2 ∧
    (Network.handleAbort [] urlA sInFlight).1.erroredCount = sInFlight.erroredCount ∧
    (Network.handleAbort [] urlA sInFlight).1.loadedCount = sInFlight.loadedCount ∧
    (Network.handleAbort [] urlA sInFlight).1.canceledCount = sInFlight.canceledCount :=
  terminal_event_counters [] urlA sInFlight

/-- A fresh Network with default configuration. -/
def netEmpty : NetworkState := Network.init none

/-- C3: add on a loaded image returns leaving the state unchanged and
performs no action; on a pending image it enqueues it unless its URL is
already present in the queue or the in-flight set, then runs a dispatch
cycle; and URL uniqueness across queue and in-flight set is preserved. -/
theorem add_dedup_dispatch (mem : List Bool) (img : NImage) (s : NetworkState)
    (h : (netUrls s).Nodup) :
    (img.loaded = true →
      (Network.add mem img s).1 = s ∧ (Network.add mem img s).2 = []) ∧
    (img.loaded = false → Network.add mem img s =
      Network.update mem (if img.url ∈ netUrls s then s
        else { s with imageQueue := s.imageQueue ++ [img] })) ∧
    (netUrls (Network.add mem img s).1).Nodup := by
  refine ⟨?_, ?_, ?_⟩
  · intro hl
    simp [Network.add, hl]
  · intro hl
    have hl' : ¬(img.loaded = true) := by simp [hl]
    simp only [Network.add, if_neg hl']
    have hiff : (img.url ∈ s.imageQueue.map NImage.url ∨ img.url ∈ s.processes) ↔
        img.url ∈ netUrls s := by simp [netUrls, List.mem_append]
    exact congrArg (Network.update mem) (if_congr hiff rfl rfl)
  · by_cases hl : img.loaded = true
    · simp only [Network.add, if_pos hl]
      exact h
    · simp only [Network.add, if_neg hl]
      by_cases hdup : img.url ∈ s.imageQueue.map NImage.url ∨ img.url ∈ s.processes
      · rw [if_pos hdup]
        have := updateLoop_nodup s.imageQueue mem s.processes s.maxProcesses
          (by simpa [netUrls] using h)
        simpa [netUrls, Network.update] using this
      · rw [if_neg hdup]
        have hni : img.url ∉ s.imageQueue.map NImage.url ++ s.processes := by
          simpa [List.mem_append] using hdup
        have hp : ((s.imageQueue.map NImage.url ++ [img.url]) ++ s.processes).Perm
            (img.url :: (s.imageQueue.map NImage.url ++ s.processes)) := by
          simp
        have hc : (img.url :: (s.imageQueue.map NImage.url ++ s.processes)).Nodup :=
          List.nodup_cons.mpr ⟨hni, by simpa [netUrls] using h⟩
        have hnew : ((s.imageQueue ++ [img]).map NImage.url ++ s.processes).Nodup := by
          have := hp.symm.nodup hc
          simpa using this
        have := updateLoop_nodup (s.imageQueue ++ [img]) mem s.processes
          s.maxProcesses hnew
        simpa [netUrls, Network.update] using this

theorem add_dedup_dispatch_witness :
    (netUrls netEmpty).Nodup ∧
    ((imgA.loaded = true →
      (Network.add [] imgA netEmpty).1 = netEmpty ∧
        (Network.add [] imgA netEmpty).2 = []) ∧
    (imgA.loaded = false → Network.add [] imgA netEmpty =
      Network.update [] (if imgA.url ∈ netUrls netEmpty then netEmpty
        else { netEmpty with imageQueue := netEmpty.imageQueue ++ [imgA] })) ∧
    (netUrls (Network.add [] imgA netEmpty).1).Nodup) :=
  ⟨by decide, add_dedup_dispatch [] imgA netEmpty (by decide)⟩

/-- The Network state right after the load handler bumps loadedCount and
onDone removes the finished loader, before the dispatch cycle re-runs. -/
def loadDone (url : String) (s : NetworkState) : NetworkState :=
  { s with processes := s.processes.erase url, loadedCount := s.loadedCount + 1 }

/-- C9: the trace of the load handler shows the exact order: increment
loadedCount, remove the loader from the in-flight set, re-run the dispatch
cycle (whose actions are only spawns or the overflow warning), and only then
assign the blob to the image and emit the Network-level load event. The
resulting state is the state after that dispatch cycle. -/
theorem load_event_order (mem : List Bool) (url : String) (s : NetworkState) :
    (Network.handleLoad mem url s).2 =
      NetAction.incLoaded :: NetAction.removeProcess url ::
        ((Network.update mem (loadDone url s)).2 ++
          [NetAction.assignBlob url, NetAction.emitLoad url]) ∧
    (∀ a ∈ (Network.update mem (loadDone url s)).2,
      a = NetAction.warnOverflow ∨ ∃ u, a = NetAction.spawn u) ∧
    (Network.handleLoad mem url s).1 = (Network.update mem (loadDone url s)).1 := by
  refine ⟨?_, update_actions_shape mem _, rfl⟩
  simp [Network.handleLoad, Network.onDone, loadDone]

theorem load_event_order_witness :
    (Network.handleLoad [] urlA sInFlight).2 =
      NetAction.incLoaded :: NetAction.removeProcess urlA ::
        ((Network.update [] (loadDone urlA sInFlight)).2 ++
          [NetAction.assignBlob urlA, NetAction.emitLoad urlA]) ∧
    (∀ a ∈ (Network.update [] (loadDone urlA sInFlight)).2,
      a = NetAction.warnOverflow ∨ ∃ u, a = NetAction.spawn u) ∧
    (Network.handleLoad [] urlA sInFlight).1 =
      (Network.update [] (loadDone urlA sInFlight)).1 :=
  load_event_order [] urlA sInFlight

/-
Embedding of class Img (src/unnamed/part_003). The hidden HTMLImageElement
is modelled by its src string, the presence of its onload and onerror
handlers, and its natural dimensions (set by the browser when the blob
decodes). DOM and event side effects are returned as an explicit list of
ImgEffect actions next to the new state; deliver effects record events
actually delivered to currently subscribed listeners.
-/

/-- Pixel size of an image. -/
structure Size where
  width : Nat
  height : Nat
deriving DecidableEq, Repr

/-- The hidden decode element owned by an Img. -/
structure ImgElement where
  src : String
  hasOnload : Bool
  hasOnerror : Bool
  width : Nat
  height : Nat
deriving DecidableEq, Repr

/-- State of an Img instance. bytes and blob live in the Loader base class;
listeners are the ids of externally subscribed handlers. -/
structure ImgState where
  url : String
  blob : Option String
  bytes : Nat
  element : ImgElement
  renderRequests : List Nat
  gotSize : Bool
  decoded : Bool
  bytesUncompressed : Nat
  listeners : List Nat
deriving DecidableEq, Repr

/-- Side effects an Img operation performs, in program order. -/
inductive ImgEffect where
  | revokeObjectURL (url : String)
  | createObjectURL (blob : String)
  | offRendered (request : Nat)
  | subRendered (request : Nat)
  | deliver (listener : Nat) (event : String)
deriving DecidableEq, Repr

def evSize : String := "size"

def evClear : String := "clear"

def evRRAdded : String := "render-request-added"

def evRRRemoved : String := "render-request-removed"

def evRRRendered : String := "render-request-rendered"

def evBlobError : String := "blob-error"

def noURL : String := ""

/-- The blob URL the browser mints for a blob. -/
def objectURL (b : String) : String := "blob:" ++ b

/-- Img constructor (lines 91-103): fresh element, no size, not decoded. -/
def Img.mk0 (url : String) (listeners : List Nat) : ImgState :=
  { url := url
    blob := none
    bytes := 0
    element := { src := noURL, hasOnload := false, hasOnerror := false,
                 width := 0, height := 0 }
    renderRequests := []
    gotSize := false
    decoded := false
    bytesUncompressed := 0
    listeners := listeners }

/-- Img.getBytesRam (lines 180-183). -/
def Img.getBytesRam (s : ImgState) : Nat :=
  s.bytes + (if s.decoded then s.bytesUncompressed else 0)

/-- Img.getBytesVideo (lines 188-191). -/
def Img.getBytesVideo (size : Size) : Nat :=
  size.width * size.height * 4

/-- Img.registerRequest (lines 128-132): Set.add, subscribe, emit. -/
def Img.registerRequest (r : Nat) (s : ImgState) : ImgState × List ImgEffect :=
  ({ s with renderRequests :=
      if r ∈ s.renderRequests then s.renderRequests else s.renderRequests ++ [r] },
    ImgEffect.subRendered r ::
      s.listeners.map (fun l => ImgEffect.deliver l evRRAdded))

/-- Img.unregisterRequest (lines 137-141): unsubscribe, Set.delete, emit. -/
def Img.unregisterRequest (r : Nat) (s : ImgState) : ImgState × List ImgEffect :=
  ({ s with renderRequests := s.renderRequests.erase r },
    ImgEffect.offRendered r ::
      s.listeners.map (fun l => ImgEffect.deliver l evRRRemoved))

/-- The for-loop of Img.clear (lines 118-120) over a snapshot of the
render-request set, unregistering each request. -/
def clearLoop : List Nat → ImgState → ImgState × List ImgEffect
  | [], s => (s, [])
  | r :: rs, s =>
    let x := Img.unregisterRequest r s
    let y := clearLoop rs x.1
    (y.1, x.2 ++ y.2)

/-- Img.clear (lines 111-123), in source order: null the element handlers,
blank the element src, reset gotSize and bytesUncompressed, call
URL.revokeObjectURL on the elements current src (already blanked), then
unregister every render request, emit clear to the current listeners, and
remove all listeners. -/
def Img.clear (s : ImgState) : ImgState × List ImgEffect :=
  let s1 := { s with
    element := { s.element with hasOnload := false, hasOnerror := false, src := noURL },
    gotSize := false,
    bytesUncompressed := 0 }
  let x := clearLoop s1.renderRequests s1
  ({ x.1 with listeners := [] },
    ImgEffect.revokeObjectURL s1.element.src ::
      (x.2 ++ x.1.listeners.map (fun l => ImgEffect.deliver l evClear)))

/-- Img loadend handler body (lines 203-205) for a present blob: install
the element handlers and point the element src at a fresh blob URL. -/
def Img.onLoadEndSome (b : String) (s : ImgState) : ImgState × List ImgEffect :=
  ({ s with element := { s.element with
      hasOnload := true, hasOnerror := true, src := objectURL b } },
    [ImgEffect.createObjectURL b])

/-- Img loadend handler (lines 199-206): requires the blob, otherwise the
source throws, modelled as none. -/
def Img.onLoadEnd (s : ImgState) : Option (ImgState × List ImgEffect) :=
  match s.blob with
  | none => none
  | some b => some (Img.onLoadEndSome b s)

/-- Img onBlobAssigned handler (lines 211-223), run when the browser has
decoded the blob and set the element natural size to w by h: null the
element handlers, record gotSize, compute bytesUncompressed from the
element size, and emit the size event. -/
def Img.onBlobAssigned (w h : Nat) (s : ImgState) : ImgState × List ImgEffect :=
  let e := { s.element with
    width := w, height := h, hasOnload := false, hasOnerror := false }
  ({ s with
    element := e,
    gotSize := true,
    bytesUncompressed := Img.getBytesVideo { width := e.width, height := e.height } },
    s.listeners.map (fun l => ImgEffect.deliver l evSize))

/-- Img onBlobError handler (lines 228-232). -/
def Img.onBlobError (s : ImgState) : ImgState × List ImgEffect :=
  ({ s with element := { s.element with hasOnload := false, hasOnerror := false } },
    s.listeners.map (fun l => ImgEffect.deliver l evBlobError))

/-- Img onRendered handler (lines 237-240): mark decoded and re-emit. -/
def Img.onRendered (s : ImgState) : ImgState × List ImgEffect :=
  ({ s with decoded := true },
    s.listeners.map (fun l => ImgEffect.deliver l evRRRendered))

/-- Modelled from the spec: the Loader base class is not under src/; on a
successful fetch it exposes the fetched bytes as a blob and the total byte
count (spec section 4.1), which the Img inherits. -/
def Img.setLoaderData (b : String) (n : Nat) (s : ImgState) : ImgState :=
  { s with blob := some b, bytes := n }

/-- Img states reachable from construction through loader completion,
browser decode callbacks, render notifications, request registration and
clear. Handler steps carry the preconditions under which the browser or a
render request can invoke them. -/
inductive ImgReachable : ImgState → Prop where
  | mk0 (url : String) (ls : List Nat) : ImgReachable (Img.mk0 url ls)
  | registerReq {s : ImgState} (r : Nat) :
      ImgReachable s → ImgReachable (Img.registerRequest r s).1
  | unregisterReq {s : ImgState} (r : Nat) :
      ImgReachable s → ImgReachable (Img.unregisterRequest r s).1
  | loaderData {s : ImgState} (b : String) (n : Nat) :
      ImgReachable s → ImgReachable (Img.setLoaderData b n s)
  | loadEnd {s : ImgState} (b : String) (hb : s.blob = some b) :
      ImgReachable s → ImgReachable (Img.onLoadEndSome b s).1
  | blobAssigned {s : ImgState} (w h : Nat) (hl : s.element.hasOnload = true) :
      ImgReachable s → ImgReachable (Img.onBlobAssigned w h s).1
  | blobError {s : ImgState} (hl : s.element.hasOnerror = true) :
      ImgReachable s → ImgReachable (Img.onBlobError s).1
  | rendered {s : ImgState} (r : Nat) (hr : r ∈ s.renderRequests) :
      ImgReachable s → ImgReachable (Img.onRendered s).1
  | clearStep {s : ImgState} : ImgReachable s → ImgReachable (Img.clear s).1

/-- The for-loop of clear only touches the render-request list. -/
lemma clearLoop_fst (l : List Nat) (s : ImgState) :
    (clearLoop l s).1 =
      { s with renderRequests :=
          l.foldl (fun a r => a.erase r) s.renderRequests } := by
  induction l generalizing s with
  | nil => simp [clearLoop]
  | cons r rs ih => simp [clearLoop, Img.unregisterRequest, ih]

/-- Erasing every member of a list from itself empties it. -/
lemma foldl_erase_self (l : List Nat) :
    l.foldl (fun a r => a.erase r) l = [] := by
  induction l with
  | nil => rfl
  | cons r rs ih => simp [List.erase_cons_head, ih]

/-- Closed form of the state after Img.clear. -/
lemma clear_fst (s : ImgState) : (Img.clear s).1 =
    { s with
      element := { s.element with
        hasOnload := false, hasOnerror := false, src := noURL },
      gotSize := false,
      bytesUncompressed := 0,
      renderRequests := [],
      listeners := [] } := by
  simp [Img.clear, clearLoop_fst, foldl_erase_self]

def blobA : String := "b1"

/-- A freshly constructed Img for urlA. -/
def img0 : ImgState := Img.mk0 urlA []

/-- The same Img after the loader delivered a 100-byte blob. -/
def img1 : ImgState := Img.setLoaderData blobA 100 img0

/-- The same Img after the loadend handler minted the blob URL. -/
def img2 : ImgState :=
  { url := urlA
    blob := some blobA
    bytes := 100
    element := { src := objectURL blobA, hasOnload := true, hasOnerror := true,
                 width := 0, height := 0 }
    renderRequests := []
    gotSize := false
    decoded := false
    bytesUncompressed := 0
    listeners := [] }

lemma loadEnd_img1 :
    Img.onLoadEnd img1 = some (img2, [ImgEffect.createObjectURL blobA]) := rfl

lemma img2_reach : ImgReachable img2 :=
  ImgReachable.loadEnd blobA rfl
    (ImgReachable.loaderData blobA 100 (ImgReachable.mk0 urlA []))

/-- The same Img after the browser decoded the blob at 2 by 3 pixels. -/
def imgSized : ImgState := (Img.onBlobAssigned 2 3 img2).1

lemma imgSized_reach : ImgReachable imgSized :=
  ImgReachable.blobAssigned 2 3 rfl img2_reach

/-- C5 counterexample: a reachable Img state, obtained by loading a blob and
decoding its size but before any render, has bytesUncompressed = 24 > 0
while decoded is still false, refuting the claimed invariant
bytesUncompressed > 0 iff decoded. -/
theorem bytesUncompressed_decoded_cx :
    ImgReachable imgSized ∧ imgSized.bytesUncompressed = 24 ∧
    imgSized.decoded = false ∧
    ¬(0 < imgSized.bytesUncompressed ↔ imgSized.decoded = true) :=
  ⟨imgSized_reach, by decide, by decide, by decide⟩

/-- C5 amended: in every reachable Img state a positive bytesUncompressed
implies gotSize; bytesUncompressed tracks size determination, not the
decoded flag, which is set independently at first render and survives
clear. -/
theorem bytesUncompressed_pos_gotSize (s : ImgState) (h : ImgReachable s) :
    0 < s.bytesUncompressed → s.gotSize = true := by
  induction h with
  | mk0 url ls =>
    intro hb
    simp [Img.mk0] at hb
  | registerReq r hr ih =>
    intro hb
    simp only [Img.registerRequest] at hb ⊢
    exact ih hb
  | unregisterReq r hr ih =>
    intro hb
    simp only [Img.unregisterRequest] at hb ⊢
    exact ih hb
  | loaderData b n hr ih =>
    intro hb
    simp only [Img.setLoaderData] at hb ⊢
    exact ih hb
  | loadEnd b hb hr ih =>
    intro hpos
    simp only [Img.onLoadEndSome] at hpos ⊢
    exact ih hpos
  | blobAssigned w ht hl hr ih =>
    intro hb
    simp [Img.onBlobAssigned]
  | blobError hl hr ih =>
    intro hb
    simp only [Img.onBlobError] at hb ⊢
    exact ih hb
  | rendered r hrr hr ih =>
    intro hb
    simp only [Img.onRendered] at hb ⊢
    exact ih hb
  | clearStep hr ih =>
    intro hb
    rw [clear_fst] at hb
    simp at hb

theorem bytesUncompressed_pos_gotSize_witness :
    0 < imgSized.bytesUncompressed ∧ imgSized.gotSize = true :=
  ⟨by decide, bytesUncompressed_pos_gotSize imgSized imgSized_reach (by decide)⟩

/-- C6: the claim (and the spec) says clear revokes the blob URL exactly
once, but the source blanks element.src before calling
URL.revokeObjectURL(this.element.src), so on the reachable state img2,
whose element src is the blob URL, clear revokes the empty string and never
the blob URL. -/
theorem clear_revokes_wrong_url :
    ImgReachable img2 ∧
    img2.element.src = objectURL blobA ∧
    ImgEffect.revokeObjectURL noURL ∈ (Img.clear img2).2 ∧
    ImgEffect.revokeObjectURL (objectURL blobA) ∉ (Img.clear img2).2 :=
  ⟨img2_reach, by decide, by decide, by decide⟩

/-- C7: clear is idempotent: a second clear reproduces exactly the state
after the first one, delivers no event to any listener and unregisters no
request; its only external call is revoking the already-empty src. -/
theorem clear_idempotent (s : ImgState) :
    (Img.clear (Img.clear s).1).1 = (Img.clear s).1 ∧
    (Img.clear (Img.clear s).1).2 = [ImgEffect.revokeObjectURL noURL] := by
  constructor
  · simp [clear_fst]
  · rw [clear_fst]
    rfl

/-- C8: getBytesRam is the compressed bytes plus, when decoded, the
uncompressed estimate; getBytesVideo is width times height times 4. -/
theorem bytes_accounting (s : ImgState) (size : Size) :
    Img.getBytesRam s = s.bytes + (if s.decoded then s.bytesUncompressed else 0) ∧
    Img.getBytesVideo size = size.width * size.height * 4 :=
  ⟨rfl, rfl⟩

/-- C10: clear leaves bytes and decoded unchanged; since it zeroes
bytesUncompressed, getBytesRam after clear returns exactly the compressed
byte count, in particular for an Img whose decoded flag was set. -/
theorem clear_keeps_bytes_decoded (s : ImgState) :
    (Img.clear s).1.bytes = s.bytes ∧
    (Img.clear s).1.decoded = s.decoded ∧
    Img.getBytesRam (Img.clear s).1 = s.bytes := by
  refine ⟨?_, ?_, ?_⟩ <;> simp [clear_fst, Img.getBytesRam]

end ImageCache
